import Mathlib

/-!
Verification of the reference-counted pointer benchmark (`src/main.rs`).

The development shallow-embeds the program's heap as a partial map from
addresses to storage blocks, threads that state explicitly through the
pointer operations (`CustomRc::new`, `Clone::clone`, `CustomRc::drop_rc`,
`Deref::deref`), and embeds the generic workload driver (`Game::setup`,
`Game::run`) over a record of those operations, instantiated both with the
custom pointer and with the standard-library adapter.
-/

set_option maxHeartbeats 1000000

namespace RcBench

/-- Game entity record: `struct Entity { id: usize, x: f32, y: f32 }`. -/
structure Entity where
  id : Nat
  x : Float
  y : Float

/-- Method `Entity::update`: `self.x += 1.0; self.y += 1.0` (defined in the source,
never called by the workload driver). -/
def Entity.update (e : Entity) : Entity :=
  { e with x := e.x + 1.0, y := e.y + 1.0 }

/-- Storage block `CustomRcInner<T> { ref_count: UnsafeCell<usize>, value: T }`:
a live-handle count co-located with the owned value. -/
structure CustomRcInner (T : Type) where
  ref_count : Nat
  value : T
deriving DecidableEq

/-- The slice of the process heap holding `CustomRcInner` blocks: a partial map
from addresses to blocks, the next fresh address (heap allocation never returns
the null address, so fresh addresses start at 1), and the log of addresses
handed back to the allocator (`Box::from_raw`), in order. -/
@[ext]
structure State (T : Type) where
  mem : Nat → Option (CustomRcInner T)
  next : Nat
  frees : List Nat

variable {T : Type}

/-- The heap before the program allocates anything. -/
def State.empty (T : Type) : State T :=
  ⟨fun _ => none, 1, []⟩

/-- Store `b` at address `a`. -/
def State.write (s : State T) (a : Nat) (b : Option (CustomRcInner T)) : State T :=
  { s with mem := fun a' => if a' = a then b else s.mem a' }

/-- Well-formed heap: the fresh-address counter is positive (so no block ever
sits at the null address) and addresses at or above it are unallocated. -/
def State.WF (s : State T) : Prop :=
  1 ≤ s.next ∧ ∀ a, s.next ≤ a → s.mem a = none

/-- Handle `CustomRc<T> { ptr: NonNull<CustomRcInner<T>> }`: storing the
address of the block. -/
structure CustomRc where
  ptr : Nat
deriving DecidableEq

/-- Constructor `CustomRc::new`: heap-allocate `CustomRcInner { ref_count: 1, value }`
(`Box::into_raw(Box::new(..))`) and wrap the fresh address. -/
def CustomRc.new (v : T) (s : State T) : CustomRc × State T :=
  (⟨s.next⟩, { s.write s.next (some ⟨1, v⟩) with next := s.next + 1 })

/-- Clone (`impl Clone for CustomRc`): read `old_count` from the addressed block, write
`old_count + 1` back, return a handle with the identical `ptr`. Cloning a
dangling handle is undefined behaviour in the source; the model leaves the
state unchanged on that unreachable branch. -/
def CustomRc.clone (h : CustomRc) (s : State T) : CustomRc × State T :=
  match s.mem h.ptr with
  | some inner => (⟨h.ptr⟩, s.write h.ptr (some ⟨inner.ref_count + 1, inner.value⟩))
  | none => (⟨h.ptr⟩, s)

/-- Destroy (`CustomRc::drop_rc`): `*count -= 1; if *count == 0 { Box::from_raw(ptr) }`.
Reaching zero removes the block from the heap and logs the deallocation (which
is also the point where the pointee's own teardown runs). `impl Drop for
CustomRc` forwards to this, so handle destruction and `drop_rc` coincide. -/
def CustomRc.drop_rc (h : CustomRc) (s : State T) : State T :=
  match s.mem h.ptr with
  | some inner =>
      if inner.ref_count - 1 = 0 then
        { s.write h.ptr none with frees := s.frees ++ [h.ptr] }
      else
        s.write h.ptr (some ⟨inner.ref_count - 1, inner.value⟩)
  | none => s

/-- Dereference (`impl Deref for CustomRc`): `&self.ptr.as_ref().value` — a read of the
block's value field; the method takes `&self` and the heap is returned as it
was. -/
def CustomRc.deref (h : CustomRc) (s : State T) : Option T × State T :=
  ((s.mem h.ptr).map (fun inner => inner.value), s)

/-! ### Operation traces on a single storage block

All handles of one block carry the same address, so a single-threaded sequence
of `clone` and `drop_rc` calls on live handles of that block is a list of the
two operation kinds applied at that address. -/

/-- One operation of a clone/destroy sequence on a block. -/
inductive RcOp where
  | clone : RcOp
  | drop : RcOp
deriving DecidableEq

/-- Apply one operation at address `a`. -/
def applyOp (a : Nat) (s : State T) : RcOp → State T
  | RcOp.clone => (CustomRc.clone ⟨a⟩ s).2
  | RcOp.drop => CustomRc.drop_rc ⟨a⟩ s

/-- Run a whole sequence of operations at address `a`. -/
def runRcOps (a : Nat) (ops : List RcOp) (s : State T) : State T :=
  ops.foldl (applyOp a) s

/-- Number of `clone` calls in a sequence. -/
def countClones : List RcOp → Nat
  | [] => 0
  | RcOp.clone :: r => countClones r + 1
  | RcOp.drop :: r => countClones r

/-- Number of `drop_rc` calls in a sequence. -/
def countDrops : List RcOp → Nat
  | [] => 0
  | RcOp.clone :: r => countDrops r
  | RcOp.drop :: r => countDrops r + 1

/-- The reference count after running a sequence, starting from count `c`. -/
def evalCount (c : Nat) : List RcOp → Nat
  | [] => c
  | RcOp.clone :: r => evalCount (c + 1) r
  | RcOp.drop :: r => evalCount (c - 1) r

/-- A sequence is admissible from count `c` when every operation is performed
while a handle is still live: the count is at least 1 before each step. (Once
the count reaches 0 the block is gone and no handle exists to operate on.) -/
def okSeq (c : Nat) : List RcOp → Bool
  | [] => true
  | RcOp.clone :: r => decide (1 ≤ c) && okSeq (c + 1) r
  | RcOp.drop :: r => decide (1 ≤ c) && okSeq (c - 1) r

theorem okSeq_zero : ∀ ops : List RcOp, okSeq 0 ops = true → ops = []
  | [], _ => rfl
  | RcOp.clone :: _, h => by simp [okSeq] at h
  | RcOp.drop :: _, h => by simp [okSeq] at h

theorem okSeq_append : ∀ (p q : List RcOp) (c : Nat),
    okSeq c (p ++ q) = true → okSeq c p = true
  | [], _, _, _ => rfl
  | RcOp.clone :: r, q, c, h => by
      simp only [List.cons_append, okSeq, Bool.and_eq_true, decide_eq_true_eq] at h ⊢
      exact ⟨h.1, okSeq_append r q (c + 1) h.2⟩
  | RcOp.drop :: r, q, c, h => by
      simp only [List.cons_append, okSeq, Bool.and_eq_true, decide_eq_true_eq] at h ⊢
      exact ⟨h.1, okSeq_append r q (c - 1) h.2⟩

/-- Under admissibility the final count is `c + clones − drops` (stated without
truncated subtraction). -/
theorem evalCount_eq : ∀ (ops : List RcOp) (c : Nat), okSeq c ops = true →
    evalCount c ops + countDrops ops = c + countClones ops
  | [], c, _ => rfl
  | RcOp.clone :: r, c, h => by
      simp only [okSeq, Bool.and_eq_true, decide_eq_true_eq] at h
      have := evalCount_eq r (c + 1) h.2
      simp only [evalCount, countDrops, countClones]
      omega
  | RcOp.drop :: r, c, h => by
      simp only [okSeq, Bool.and_eq_true, decide_eq_true_eq] at h
      have := evalCount_eq r (c - 1) h.2
      simp only [evalCount, countDrops, countClones]
      omega

/-- Main trace lemma: starting from a heap where address `a` holds a block with
count `c` and value `v`, an admissible sequence leaves the block at count
`evalCount c ops` with the value untouched — or removes it and logs exactly one
deallocation when that count is 0. Other addresses, the allocation counter and
the remainder of the free log are untouched. -/
theorem runRcOps_spec : ∀ (ops : List RcOp) (c : Nat) (v : T) (a : Nat) (s : State T),
    1 ≤ c → s.mem a = some ⟨c, v⟩ → okSeq c ops = true →
    ((runRcOps a ops s).mem a =
        (if evalCount c ops = 0 then none else some ⟨evalCount c ops, v⟩))
    ∧ (runRcOps a ops s).frees =
        s.frees ++ (if evalCount c ops = 0 then [a] else [])
    ∧ (∀ b, b ≠ a → (runRcOps a ops s).mem b = s.mem b)
    ∧ (runRcOps a ops s).next = s.next
  | [], c, v, a, s, hc1, hmem, _ => by
      have hc : ¬ c = 0 := by omega
      simp [runRcOps, evalCount, hmem, hc]
  | RcOp.clone :: r, c, v, a, s, _, hmem, hok => by
      simp only [okSeq, Bool.and_eq_true, decide_eq_true_eq] at hok
      have hstep : applyOp a s RcOp.clone = s.write a (some ⟨c + 1, v⟩) := by
        simp [applyOp, CustomRc.clone, hmem]
      have hmem' : (s.write a (some ⟨c + 1, v⟩)).mem a = some ⟨c + 1, v⟩ := by
        simp [State.write]
      have ih := runRcOps_spec r (c + 1) v a (s.write a (some ⟨c + 1, v⟩))
        (by omega) hmem' hok.2
      have hrun : runRcOps a (RcOp.clone :: r) s =
          runRcOps a r (s.write a (some ⟨c + 1, v⟩)) := by
        simp [runRcOps, hstep]
      rw [hrun]
      refine ⟨?_, ?_, ?_, ?_⟩
      · simpa [evalCount] using ih.1
      · simpa [evalCount, State.write] using ih.2.1
      · intro b hb
        rw [ih.2.2.1 b hb]
        simp [State.write, hb]
      · simpa [State.write] using ih.2.2.2
  | RcOp.drop :: r, c, v, a, s, _, hmem, hok => by
      simp only [okSeq, Bool.and_eq_true, decide_eq_true_eq] at hok
      rcases Nat.lt_or_ge 1 c with hc2 | hc1
      · -- c ≥ 2: the decrement leaves the block allocated
        have hne : c - 1 ≠ 0 := by omega
        have hstep : applyOp a s RcOp.drop = s.write a (some ⟨c - 1, v⟩) := by
          simp [applyOp, CustomRc.drop_rc, hmem, hne]
        have hmem' : (s.write a (some ⟨c - 1, v⟩)).mem a = some ⟨c - 1, v⟩ := by
          simp [State.write]
        have ih := runRcOps_spec r (c - 1) v a (s.write a (some ⟨c - 1, v⟩))
          (by omega) hmem' hok.2
        have hrun : runRcOps a (RcOp.drop :: r) s =
            runRcOps a r (s.write a (some ⟨c - 1, v⟩)) := by
          simp [runRcOps, hstep]
        rw [hrun]
        refine ⟨?_, ?_, ?_, ?_⟩
        · simpa [evalCount] using ih.1
        · simpa [evalCount, State.write] using ih.2.1
        · intro b hb
          rw [ih.2.2.1 b hb]
          simp [State.write, hb]
        · simpa [State.write] using ih.2.2.2
      · -- c = 1: the decrement reaches 0, the block is freed, the rest is empty
        have hc : c = 1 := by omega
        subst hc
        have hrest : r = [] := okSeq_zero r (by simpa [evalCount] using hok.2)
        subst hrest
        have hstep : applyOp a s RcOp.drop =
            { s.write a none with frees := s.frees ++ [a] } := by
          simp [applyOp, CustomRc.drop_rc, hmem]
        refine ⟨?_, ?_, ?_, ?_⟩
        · simp [runRcOps, hstep, evalCount, State.write]
        · simp [runRcOps, hstep, evalCount, State.write]
        · intro b hb
          simp [runRcOps, hstep, State.write, hb]
        · simp [runRcOps, hstep, State.write]

/-- C1: for every sequence of operations on a single storage block that starts
with `CustomRc::new` (count = 1) and consists of `Clone::clone` and
`CustomRc::drop_rc` calls on live handles of that block (admissibility
`okSeq`), the block's `ref_count` after the sequence equals
1 + (number of clones) − (number of drops). -/
theorem customRc_count_conservation (v : T) (s0 : State T) (ops : List RcOp)
    (hok : okSeq 1 ops = true)
    (halive : countDrops ops ≤ countClones ops) :
    (runRcOps (CustomRc.new v s0).1.ptr ops (CustomRc.new v s0).2).mem
        (CustomRc.new v s0).1.ptr
      = some ⟨1 + countClones ops - countDrops ops, v⟩ := by
  have hmem : (CustomRc.new v s0).2.mem (CustomRc.new v s0).1.ptr = some ⟨1, v⟩ := by
    simp [CustomRc.new, State.write]
  have hspec := runRcOps_spec ops 1 v _ _ (by omega) hmem hok
  have heval := evalCount_eq ops 1 hok
  have hne : ¬ evalCount 1 ops = 0 := by omega
  have hval : evalCount 1 ops = 1 + countClones ops - countDrops ops := by omega
  rw [hspec.1, if_neg hne, hval]

theorem customRc_count_conservation_witness :
    okSeq 1 [RcOp.clone, RcOp.clone, RcOp.drop] = true ∧
    countDrops [RcOp.clone, RcOp.clone, RcOp.drop] ≤
      countClones [RcOp.clone, RcOp.clone, RcOp.drop] ∧
    (runRcOps (CustomRc.new 5 (State.empty Nat)).1.ptr
        [RcOp.clone, RcOp.clone, RcOp.drop]
        (CustomRc.new 5 (State.empty Nat)).2).mem
        (CustomRc.new 5 (State.empty Nat)).1.ptr = some ⟨2, 5⟩ :=
  ⟨by decide, by decide,
    customRc_count_conservation 5 (State.empty Nat) _ (by decide) (by decide)⟩

/-- C2: a storage block is deallocated exactly once and only by the `drop_rc`
call whose decrement takes `ref_count` from 1 to 0. Conjuncts: (a) a drop whose
resulting count is positive deallocates nothing and leaves the block in place;
(b) the drop that decrements from 1 removes the block and logs exactly its one
deallocation (the point where the pointee's teardown runs); (c) over any full
admissible sequence from `new`, the deallocation log holds the block's address
exactly once when every handle has been dropped, and not at all otherwise — so
the pointee's teardown runs exactly once per constructed value. -/
theorem customRc_single_dealloc :
    (∀ (s : State T) (h : CustomRc) (inner : CustomRcInner T),
        s.mem h.ptr = some inner → 2 ≤ inner.ref_count →
        (CustomRc.drop_rc h s).frees = s.frees ∧
        (CustomRc.drop_rc h s).mem h.ptr = some ⟨inner.ref_count - 1, inner.value⟩)
  ∧ (∀ (s : State T) (h : CustomRc) (inner : CustomRcInner T),
        s.mem h.ptr = some inner → inner.ref_count = 1 →
        (CustomRc.drop_rc h s).frees = s.frees ++ [h.ptr] ∧
        (CustomRc.drop_rc h s).mem h.ptr = none)
  ∧ (∀ (v : T) (ops : List RcOp), okSeq 1 ops = true →
        ((runRcOps (CustomRc.new v (State.empty T)).1.ptr ops
            (CustomRc.new v (State.empty T)).2).frees).count
          (CustomRc.new v (State.empty T)).1.ptr
        = (if countDrops ops = 1 + countClones ops then 1 else 0)) := by
  refine ⟨?_, ?_, ?_⟩
  · intro s h inner hmem hge
    have hne : ¬ inner.ref_count - 1 = 0 := by omega
    constructor
    · simp [CustomRc.drop_rc, hmem, hne, State.write]
    · simp [CustomRc.drop_rc, hmem, hne, State.write]
  · intro s h inner hmem hone
    constructor
    · simp [CustomRc.drop_rc, hmem, hone, State.write]
    · simp [CustomRc.drop_rc, hmem, hone, State.write]
  · intro v ops hok
    have hmem : (CustomRc.new v (State.empty T)).2.mem
        (CustomRc.new v (State.empty T)).1.ptr = some ⟨1, v⟩ := by
      simp [CustomRc.new, State.write]
    have hspec := runRcOps_spec ops 1 v _ _ (by omega) hmem hok
    have heval := evalCount_eq ops 1 hok
    have hfrees0 : (CustomRc.new v (State.empty T)).2.frees = [] := by
      simp [CustomRc.new, State.empty, State.write]
    rw [hspec.2.1, hfrees0]
    by_cases h0 : evalCount 1 ops = 0
    · have hd : countDrops ops = 1 + countClones ops := by omega
      simp [h0, hd]
    · have hd : ¬ countDrops ops = 1 + countClones ops := by omega
      simp [h0, hd]

theorem customRc_single_dealloc_witness :
    ((CustomRc.drop_rc ⟨1⟩
        (⟨fun a => if a = 1 then some ⟨2, 7⟩ else none, 2, []⟩ : State Nat)).frees = [] ∧
     (CustomRc.drop_rc ⟨1⟩
        (⟨fun a => if a = 1 then some ⟨2, 7⟩ else none, 2, []⟩ : State Nat)).mem 1 =
       some ⟨1, 7⟩)
  ∧ ((CustomRc.drop_rc ⟨1⟩
        (⟨fun a => if a = 1 then some ⟨1, 7⟩ else none, 2, []⟩ : State Nat)).frees = [1] ∧
     (CustomRc.drop_rc ⟨1⟩
        (⟨fun a => if a = 1 then some ⟨1, 7⟩ else none, 2, []⟩ : State Nat)).mem 1 = none)
  ∧ ((runRcOps (CustomRc.new 7 (State.empty Nat)).1.ptr
        [RcOp.clone, RcOp.drop, RcOp.drop]
        (CustomRc.new 7 (State.empty Nat)).2).frees).count
      (CustomRc.new 7 (State.empty Nat)).1.ptr = 1 := by
  refine ⟨?_, ?_, ?_⟩
  · exact customRc_single_dealloc.1 _ ⟨1⟩ ⟨2, 7⟩ (by decide) (by decide)
  · exact customRc_single_dealloc.2.1 _ ⟨1⟩ ⟨1, 7⟩ (by decide) (by decide)
  · exact customRc_single_dealloc.2.2 7 [RcOp.clone, RcOp.drop, RcOp.drop] (by decide)

/-- C4: in every reachable state of an admissible single-threaded sequence
(every prefix `p` of the sequence), while at least one live handle points at
the block (the running live-handle count `evalCount 1 p` is at least 1), the
block is still allocated and its stored `ref_count` is that count, hence at
least 1 — never observable as 0 by a holder of a live handle. -/
theorem customRc_count_positive_while_live (v : T) (s0 : State T) (p q : List RcOp)
    (hok : okSeq 1 (p ++ q) = true) (hlive : 1 ≤ evalCount 1 p) :
    ∃ inner : CustomRcInner T,
      (runRcOps (CustomRc.new v s0).1.ptr p (CustomRc.new v s0).2).mem
          (CustomRc.new v s0).1.ptr = some inner
      ∧ inner.ref_count = evalCount 1 p ∧ 1 ≤ inner.ref_count := by
  have hokp := okSeq_append p q 1 hok
  have hmem : (CustomRc.new v s0).2.mem (CustomRc.new v s0).1.ptr = some ⟨1, v⟩ := by
    simp [CustomRc.new, State.write]
  have hspec := runRcOps_spec p 1 v _ _ (by omega) hmem hokp
  refine ⟨⟨evalCount 1 p, v⟩, ?_, rfl, hlive⟩
  rw [hspec.1, if_neg (by omega)]

theorem customRc_count_positive_while_live_witness :
    okSeq 1 ([RcOp.clone, RcOp.drop] ++ [RcOp.drop]) = true ∧
    1 ≤ evalCount 1 [RcOp.clone, RcOp.drop] ∧
    (∃ inner : CustomRcInner Nat,
      (runRcOps (CustomRc.new 9 (State.empty Nat)).1.ptr [RcOp.clone, RcOp.drop]
          (CustomRc.new 9 (State.empty Nat)).2).mem
          (CustomRc.new 9 (State.empty Nat)).1.ptr = some inner
      ∧ inner.ref_count = evalCount 1 [RcOp.clone, RcOp.drop] ∧ 1 ≤ inner.ref_count) :=
  ⟨by decide, by decide,
    customRc_count_positive_while_live 9 (State.empty Nat) [RcOp.clone, RcOp.drop]
      [RcOp.drop] (by decide) (by decide)⟩

/-- C5: on a well-formed heap, `CustomRc::new v` returns a handle wrapping a
non-null address that was previously unallocated (a fresh block), the block it
creates holds `ref_count = 1` and the value `v`, every other address is
untouched, and the heap stays well-formed. -/
theorem customRc_new_spec (v : T) (s : State T) (hwf : s.WF) :
    (CustomRc.new v s).1.ptr ≠ 0
    ∧ s.mem (CustomRc.new v s).1.ptr = none
    ∧ (CustomRc.new v s).2.mem (CustomRc.new v s).1.ptr = some ⟨1, v⟩
    ∧ (∀ b, b ≠ (CustomRc.new v s).1.ptr → (CustomRc.new v s).2.mem b = s.mem b)
    ∧ (CustomRc.new v s).2.WF := by
  obtain ⟨h1, h2⟩ := hwf
  refine ⟨?_, ?_, ?_, ?_, ?_, ?_⟩
  · simp only [CustomRc.new]
    omega
  · exact h2 s.next le_rfl
  · simp [CustomRc.new, State.write]
  · intro b hb
    simp only [CustomRc.new] at hb ⊢
    simp [State.write, hb]
  · simp only [CustomRc.new, State.write]
    omega
  · intro a ha
    simp only [CustomRc.new, State.write] at ha ⊢
    have hne : ¬ a = s.next := by omega
    simp only [hne, if_false]
    exact h2 a (by omega)

theorem customRc_new_spec_witness :
    (State.empty Nat).WF ∧
    ((CustomRc.new 4 (State.empty Nat)).1.ptr ≠ 0
    ∧ (State.empty Nat).mem (CustomRc.new 4 (State.empty Nat)).1.ptr = none
    ∧ (CustomRc.new 4 (State.empty Nat)).2.mem
        (CustomRc.new 4 (State.empty Nat)).1.ptr = some ⟨1, 4⟩
    ∧ (∀ b, b ≠ (CustomRc.new 4 (State.empty Nat)).1.ptr →
        (CustomRc.new 4 (State.empty Nat)).2.mem b = (State.empty Nat).mem b)
    ∧ (CustomRc.new 4 (State.empty Nat)).2.WF) :=
  ⟨⟨le_rfl, fun _ _ => rfl⟩,
    customRc_new_spec 4 (State.empty Nat) ⟨le_rfl, fun _ _ => rfl⟩⟩

/-- C6: cloning a live handle returns a new handle wrapping the identical
storage-block address, increments exactly that block's reference count by 1,
leaves the pointee value unmodified, touches no other address, and performs no
deallocation or allocation. -/
theorem customRc_clone_spec (s : State T) (h : CustomRc) (c : Nat) (v : T)
    (hmem : s.mem h.ptr = some ⟨c, v⟩) :
    (CustomRc.clone h s).1.ptr = h.ptr
    ∧ (CustomRc.clone h s).2.mem h.ptr = some ⟨c + 1, v⟩
    ∧ (∀ b, b ≠ h.ptr → (CustomRc.clone h s).2.mem b = s.mem b)
    ∧ (CustomRc.clone h s).2.frees = s.frees
    ∧ (CustomRc.clone h s).2.next = s.next := by
  refine ⟨?_, ?_, ?_, ?_, ?_⟩
  · simp [CustomRc.clone, hmem]
  · simp [CustomRc.clone, hmem, State.write]
  · intro b hb
    simp [CustomRc.clone, hmem, State.write, hb]
  · simp [CustomRc.clone, hmem, State.write]
  · simp [CustomRc.clone, hmem, State.write]

theorem customRc_clone_spec_witness :
    ((⟨fun a => if a = 1 then some ⟨1, 6⟩ else none, 2, []⟩ : State Nat)).mem 1 =
      some ⟨1, 6⟩ ∧
    ((CustomRc.clone ⟨1⟩
        (⟨fun a => if a = 1 then some ⟨1, 6⟩ else none, 2, []⟩ : State Nat)).1.ptr = 1
    ∧ (CustomRc.clone ⟨1⟩
        (⟨fun a => if a = 1 then some ⟨1, 6⟩ else none, 2, []⟩ : State Nat)).2.mem 1 =
        some ⟨2, 6⟩) :=
  ⟨by decide,
    (customRc_clone_spec _ ⟨1⟩ 1 6 (by decide)).1,
    (customRc_clone_spec _ ⟨1⟩ 1 6 (by decide)).2.1⟩

/-- C7: a handle `c` obtained by cloning a live handle `h` dereferences to the
same content as `h`: they share the address, so their dereferences agree in
every heap, and after any further admissible operations on the block during
which it stays referenced, both dereference to the original value. -/
theorem customRc_clone_transparency (s : State T) (h : CustomRc) (c : Nat) (v : T)
    (hmem : s.mem h.ptr = some ⟨c, v⟩) (ops : List RcOp)
    (hok : okSeq (c + 1) ops = true) (hlive : 1 ≤ evalCount (c + 1) ops) :
    (CustomRc.clone h s).1.ptr = h.ptr
    ∧ (∀ s' : State T,
        (CustomRc.deref (CustomRc.clone h s).1 s').1 = (CustomRc.deref h s').1)
    ∧ (CustomRc.deref (CustomRc.clone h s).1
        (runRcOps h.ptr ops (CustomRc.clone h s).2)).1 = some v
    ∧ (CustomRc.deref h (runRcOps h.ptr ops (CustomRc.clone h s).2)).1 = some v := by
  have hptr : (CustomRc.clone h s).1.ptr = h.ptr := by
    simp [CustomRc.clone, hmem]
  have hmem2 : (CustomRc.clone h s).2.mem h.ptr = some ⟨c + 1, v⟩ := by
    simp [CustomRc.clone, hmem, State.write]
  have hspec := runRcOps_spec ops (c + 1) v h.ptr (CustomRc.clone h s).2
    (by omega) hmem2 hok
  have hafter : (runRcOps h.ptr ops (CustomRc.clone h s).2).mem h.ptr =
      some ⟨evalCount (c + 1) ops, v⟩ := by
    rw [hspec.1, if_neg (by omega)]
  refine ⟨hptr, ?_, ?_, ?_⟩
  · intro s'
    simp [CustomRc.deref, hptr]
  · simp [CustomRc.deref, hptr, hafter]
  · simp [CustomRc.deref, hafter]

theorem customRc_clone_transparency_witness :
    ((⟨fun a => if a = 1 then some ⟨1, 8⟩ else none, 2, []⟩ : State Nat)).mem 1 =
      some ⟨1, 8⟩ ∧
    okSeq 2 [RcOp.drop] = true ∧
    ((CustomRc.deref
        (CustomRc.clone ⟨1⟩
          (⟨fun a => if a = 1 then some ⟨1, 8⟩ else none, 2, []⟩ : State Nat)).1
        (runRcOps 1 [RcOp.drop]
          (CustomRc.clone ⟨1⟩
            (⟨fun a => if a = 1 then some ⟨1, 8⟩ else none, 2, []⟩ : State Nat)).2)).1 =
      some 8) :=
  ⟨by decide, by decide,
    (customRc_clone_transparency _ ⟨1⟩ 1 8 (by decide) [RcOp.drop]
      (by decide) (by decide)).2.2.1⟩

/-- C9: dereferencing a live handle yields the value field of its storage block
and changes nothing: the heap (in particular the block's reference count) is
exactly as before. -/
theorem customRc_deref_spec (s : State T) (h : CustomRc) (inner : CustomRcInner T)
    (hmem : s.mem h.ptr = some inner) :
    (CustomRc.deref h s).1 = some inner.value ∧ (CustomRc.deref h s).2 = s := by
  simp [CustomRc.deref, hmem]

theorem customRc_deref_spec_witness :
    ((⟨fun a => if a = 1 then some ⟨3, 2⟩ else none, 2, []⟩ : State Nat)).mem 1 =
      some ⟨3, 2⟩ ∧
    (CustomRc.deref ⟨1⟩
      (⟨fun a => if a = 1 then some ⟨3, 2⟩ else none, 2, []⟩ : State Nat)).1 = some 2 ∧
    (CustomRc.deref ⟨1⟩
      (⟨fun a => if a = 1 then some ⟨3, 2⟩ else none, 2, []⟩ : State Nat)).2 =
      (⟨fun a => if a = 1 then some ⟨3, 2⟩ else none, 2, []⟩ : State Nat) :=
  ⟨by decide,
    (customRc_deref_spec _ ⟨1⟩ ⟨3, 2⟩ (by decide)).1,
    (customRc_deref_spec _ ⟨1⟩ ⟨3, 2⟩ (by decide)).2⟩

/-! ### The shared-pointer abstraction and the workload driver

`trait RcLike<T>: Clone + Deref<Target = T> + Constructor<T>` together with the
implicit `Drop` hook becomes a record of state-passing operations; the generic
`Game` driver is written once over that record, exactly as the Rust driver is
generic over `RcType`. -/

/-- The `RcLike`/`Constructor` capability contract: handle type, heap-state
type, and the four operations the driver may use. -/
structure RcImpl (T : Type) where
  Handle : Type
  St : Type
  new : T → St → Handle × St
  clone : Handle → St → Handle × St
  dropH : Handle → St → St
  deref : Handle → St → Option T × St

/-- The custom pointer `CustomRc<T>` as an `RcLike` implementation. -/
@[reducible]
def customRcImpl (T : Type) : RcImpl T :=
  ⟨CustomRc, State T, CustomRc.new, CustomRc.clone, CustomRc.drop_rc, CustomRc.deref⟩

/-- Handle of the adapter `StdRcWrapper<T>(Rc<T>)`: the address of the shared
`Rc` allocation it wraps. -/
structure StdRcWrapper where
  ptr : Nat
deriving DecidableEq

/-- Modelled from the spec: the internals of `std::rc::Rc` are library code
outside this repository; per §4.3 the adapter inherits the library's
strong-count semantics — allocate with strong count 1. -/
def StdRcWrapper.new (v : T) (s : State T) : StdRcWrapper × State T :=
  (⟨s.next⟩, { s.write s.next (some ⟨1, v⟩) with next := s.next + 1 })

/-- Modelled from the spec: `StdRcWrapper::clone` calls `Rc::clone`, which
increments the strong count of the shared allocation and returns a handle to
the same allocation (§4.3). -/
def StdRcWrapper.clone (h : StdRcWrapper) (s : State T) : StdRcWrapper × State T :=
  match s.mem h.ptr with
  | some inner => (⟨h.ptr⟩, s.write h.ptr (some ⟨inner.ref_count + 1, inner.value⟩))
  | none => (⟨h.ptr⟩, s)

/-- Modelled from the spec: dropping an `Rc` decrements the strong count and
frees the allocation when it reaches 0 (§4.3). -/
def StdRcWrapper.dropH (h : StdRcWrapper) (s : State T) : State T :=
  match s.mem h.ptr with
  | some inner =>
      if inner.ref_count - 1 = 0 then
        { s.write h.ptr none with frees := s.frees ++ [h.ptr] }
      else
        s.write h.ptr (some ⟨inner.ref_count - 1, inner.value⟩)
  | none => s

/-- Dereference (`impl Deref for StdRcWrapper`): `&self.0`, a pure read of the shared
value. -/
def StdRcWrapper.deref (h : StdRcWrapper) (s : State T) : Option T × State T :=
  ((s.mem h.ptr).map (fun inner => inner.value), s)

/-- The adapter `StdRcWrapper<T>` as an `RcLike` implementation. -/
@[reducible]
def stdRcImpl (T : Type) : RcImpl T :=
  ⟨StdRcWrapper, State T, StdRcWrapper.new, StdRcWrapper.clone,
    StdRcWrapper.dropH, StdRcWrapper.deref⟩

/-- Driver state `struct Game<RcType> { entities: Vec<RcType>, frames: usize,
operations_per_frame: usize }`. -/
structure Game (I : RcImpl Entity) where
  entities : List I.Handle
  frames : Nat
  operations_per_frame : Nat

/-- Constructor `Game::new`: empty entity collection. -/
def Game.new (I : RcImpl Entity) (frames operations_per_frame : Nat) : Game I :=
  ⟨[], frames, operations_per_frame⟩

/-- One iteration of `Game::setup`'s loop:
`self.entities.push(RcType::clone(&RcType::new(entity)))` with
`entity = Entity { id, x: 0.0, y: 0.0 }`. The temporary handle returned by
`RcType::new` is dropped at the end of the statement, after the push. -/
def setupStep (I : RcImpl Entity) (g : Game I) (s : I.St) (id : Nat) : Game I × I.St :=
  let t := I.new ⟨id, 0.0, 0.0⟩ s
  let c := I.clone t.1 t.2
  let g' : Game I := { g with entities := g.entities ++ [c.1] }
  (g', I.dropH t.1 c.2)

/-- Setup phase `Game::setup`: `for id in 0..num_entities { .. }`. -/
def Game.setup {I : RcImpl Entity} (g : Game I) (num_entities : Nat) (s : I.St) :
    Game I × I.St :=
  (List.range num_entities).foldl (fun gs id => setupStep I gs.1 gs.2 id) (g, s)

/-- Body of `Game::run`'s innermost loop: clone the stored handle, dereference
the clone, feed `x + y` to the discarding sink (`std::hint::black_box`), then
the clone goes out of scope and is dropped. -/
def runOnce (I : RcImpl Entity) (e : I.Handle) (s : I.St) : I.St :=
  let c := I.clone e s
  let d := I.deref c.1 c.2
  let _ := d.1.map (fun entity => entity.x + entity.y)
  I.dropH c.1 d.2

/-- Inner loop `for entity_rc in &self.entities`: one sweep over the collection, also
counting the clone/drop pairs it performs. -/
def sweep (I : RcImpl Entity) : List I.Handle → I.St → I.St × Nat
  | [], s => (s, 0)
  | e :: rest, s =>
      let s1 := runOnce I e s
      let r := sweep I rest s1
      (r.1, r.2 + 1)

/-- Middle loop `for _ in 0..self.operations_per_frame`: repeated sweeps within a frame. -/
def opLoop (I : RcImpl Entity) (es : List I.Handle) : Nat → I.St → I.St × Nat
  | 0, s => (s, 0)
  | k + 1, s =>
      let r1 := sweep I es s
      let r2 := opLoop I es k r1.1
      (r2.1, r1.2 + r2.2)

/-- Outer loop `for frame in 0..self.frames` (the progress `println!` is console-only
output with no effect on the heap). -/
def frameLoop (I : RcImpl Entity) (es : List I.Handle) (ops : Nat) :
    Nat → I.St → I.St × Nat
  | 0, s => (s, 0)
  | k + 1, s =>
      let r1 := opLoop I es ops s
      let r2 := frameLoop I es ops k r1.1
      (r2.1, r1.2 + r2.2)

/-- Run phase `Game::run`, returning the final heap and the number of clone/drop pairs
performed by the run phase. -/
def Game.run {I : RcImpl Entity} (g : Game I) (s : I.St) : I.St × Nat :=
  frameLoop I g.entities g.operations_per_frame g.frames s

/-- Clone/drop pairs performed by a full setup-then-run workload over a given
implementation, starting from heap `s`. -/
def workloadPairs (I : RcImpl Entity) (s : I.St) (N F O : Nat) : Nat :=
  let gs := (Game.new I F O).setup N s
  (gs.1.run gs.2).2

theorem sweep_count (I : RcImpl Entity) :
    ∀ (es : List I.Handle) (s : I.St), (sweep I es s).2 = es.length
  | [], _ => rfl
  | _ :: rest, s => by
      simp [sweep, sweep_count I rest]

theorem opLoop_count (I : RcImpl Entity) (es : List I.Handle) :
    ∀ (k : Nat) (s : I.St), (opLoop I es k s).2 = k * es.length
  | 0, s => by simp [opLoop]
  | k + 1, s => by
      simp [opLoop, sweep_count, opLoop_count I es k, Nat.succ_mul]
      ring

theorem frameLoop_count (I : RcImpl Entity) (es : List I.Handle) (ops : Nat) :
    ∀ (k : Nat) (s : I.St), (frameLoop I es ops k s).2 = k * ops * es.length
  | 0, s => by simp [frameLoop]
  | k + 1, s => by
      simp [frameLoop, opLoop_count, frameLoop_count I es ops k, Nat.succ_mul]
      ring

theorem setup_entities_length (I : RcImpl Entity) :
    ∀ (ids : List Nat) (g : Game I) (s : I.St),
      ((ids.foldl (fun gs id => setupStep I gs.1 gs.2 id) (g, s)).1).entities.length
        = g.entities.length + ids.length
  | [], _, _ => rfl
  | id :: rest, g, s => by
      have ih := setup_entities_length I rest
        (setupStep I g s id).1 (setupStep I g s id).2
      rw [Prod.mk.eta] at ih
      have hstep : (setupStep I g s id).1.entities.length
          = g.entities.length + 1 := by
        simp [setupStep]
      simp only [List.foldl_cons]
      rw [ih, hstep]
      simp only [List.length_cons]
      omega

theorem setup_frames (I : RcImpl Entity) :
    ∀ (ids : List Nat) (g : Game I) (s : I.St),
      ((ids.foldl (fun gs id => setupStep I gs.1 gs.2 id) (g, s)).1).frames = g.frames
      ∧ ((ids.foldl (fun gs id => setupStep I gs.1 gs.2 id) (g, s)).1).operations_per_frame
          = g.operations_per_frame
  | [], _, _ => ⟨rfl, rfl⟩
  | id :: rest, g, s => by
      have ih := setup_frames I rest (setupStep I g s id).1 (setupStep I g s id).2
      rw [Prod.mk.eta] at ih
      have hf : (setupStep I g s id).1.frames = g.frames := by
        simp [setupStep]
      have ho : (setupStep I g s id).1.operations_per_frame
          = g.operations_per_frame := by
        simp [setupStep]
      simp only [List.foldl_cons]
      exact ⟨ih.1.trans hf, ih.2.trans ho⟩

/-- C8: a full setup-then-run workload with `entity_count = N`, `frames = F`,
`operations_per_frame = O` performs exactly `N * F * O` clone/drop pairs during
the run phase, whatever heap it starts from, and the total is the same for the
`CustomRc` implementation and the `StdRcWrapper` implementation of the
abstraction (indeed the same for every implementation, first conjunct). -/
theorem workload_pairs_deterministic (N F O : Nat) :
    (∀ (I : RcImpl Entity) (s : I.St), workloadPairs I s N F O = N * F * O)
    ∧ (∀ s₁ s₂ : State Entity,
        workloadPairs (customRcImpl Entity) s₁ N F O =
          workloadPairs (stdRcImpl Entity) s₂ N F O) := by
  have key : ∀ (I : RcImpl Entity) (s : I.St), workloadPairs I s N F O = N * F * O := by
    intro I s
    have hlen := setup_entities_length I (List.range N) (Game.new I F O) s
    have hfr := setup_frames I (List.range N) (Game.new I F O) s
    unfold workloadPairs Game.run Game.setup
    rw [frameLoop_count, hfr.1, hfr.2, hlen]
    simp only [Game.new, List.length_nil, List.length_range, Nat.zero_add]
    ring
  exact ⟨key, fun s₁ s₂ => by rw [key, key]⟩

/-! ### The concrete workload over `CustomRc`, from the empty heap -/

/-- The `Game` value after `Game::<CustomRc<Entity>>::setup(n)` from a fresh
heap. -/
def gameAfterSetup (F O n : Nat) : Game (customRcImpl Entity) :=
  ((Game.new (customRcImpl Entity) F O).setup n (State.empty Entity)).1

/-- The heap after `Game::<CustomRc<Entity>>::setup(n)` from a fresh heap. -/
def stateAfterSetup (F O n : Nat) : State Entity :=
  ((Game.new (customRcImpl Entity) F O).setup n (State.empty Entity)).2

/-- The heap after `setup(n)` followed by `run()`. -/
def stateAfterRun (F O n : Nat) : State Entity :=
  ((gameAfterSetup F O n).run (stateAfterSetup F O n)).1

theorem setup_succ (F O n : Nat) :
    (Game.new (customRcImpl Entity) F O).setup (n + 1) (State.empty Entity)
      = setupStep (customRcImpl Entity) (gameAfterSetup F O n)
          (stateAfterSetup F O n) n := by
  unfold gameAfterSetup stateAfterSetup Game.setup
  rw [List.range_succ, List.foldl_append]
  rfl

/-- Effect of one `setup` iteration over `CustomRc`: the pushed handle wraps the
fresh address, whose block ends the statement with count 1 (the construction
temporary has been cloned into the collection and then dropped); everything
else is untouched. -/
theorem setupStep_custom (g : Game (customRcImpl Entity)) (s : State Entity)
    (id : Nat) :
    (setupStep (customRcImpl Entity) g s id).1.entities
        = (g.entities : List CustomRc) ++ [(⟨s.next⟩ : CustomRc)]
    ∧ (setupStep (customRcImpl Entity) g s id).1.frames = g.frames
    ∧ (setupStep (customRcImpl Entity) g s id).1.operations_per_frame
        = g.operations_per_frame
    ∧ (setupStep (customRcImpl Entity) g s id).2.next = s.next + 1
    ∧ (setupStep (customRcImpl Entity) g s id).2.mem s.next
        = some ⟨1, ⟨id, 0.0, 0.0⟩⟩
    ∧ (∀ b, b ≠ s.next → (setupStep (customRcImpl Entity) g s id).2.mem b = s.mem b)
    ∧ (setupStep (customRcImpl Entity) g s id).2.frees = s.frees := by
  refine ⟨?_, ?_, ?_, ?_, ?_, ?_, ?_⟩
  · simp [setupStep, customRcImpl, CustomRc.new, CustomRc.clone, CustomRc.drop_rc,
      State.write]
  · simp [setupStep, customRcImpl, CustomRc.new, CustomRc.clone, CustomRc.drop_rc,
      State.write]
  · simp [setupStep, customRcImpl, CustomRc.new, CustomRc.clone, CustomRc.drop_rc,
      State.write]
  · simp [setupStep, customRcImpl, CustomRc.new, CustomRc.clone, CustomRc.drop_rc,
      State.write]
  · simp [setupStep, customRcImpl, CustomRc.new, CustomRc.clone, CustomRc.drop_rc,
      State.write]
  · intro b hb
    simp [setupStep, customRcImpl, CustomRc.new, CustomRc.clone, CustomRc.drop_rc,
      State.write, hb]
  · simp [setupStep, customRcImpl, CustomRc.new, CustomRc.clone, CustomRc.drop_rc,
      State.write]

/-- Characterisation of `setup(n)` over `CustomRc` from a fresh heap: the
collection holds the handles for addresses 1..n in identifier order, each
block holds `ref_count = 1` and `Entity { id: i, x: 0.0, y: 0.0 }`, no other
address is allocated, and nothing has been deallocated. -/
theorem setupCustom_spec (F O : Nat) : ∀ n : Nat,
    (gameAfterSetup F O n).entities
        = (List.range n).map (fun i => (⟨i + 1⟩ : CustomRc))
    ∧ (stateAfterSetup F O n).next = n + 1
    ∧ (∀ i, i < n → (stateAfterSetup F O n).mem (i + 1)
        = some ⟨1, ⟨i, 0.0, 0.0⟩⟩)
    ∧ (∀ a, (a = 0 ∨ n + 1 ≤ a) → (stateAfterSetup F O n).mem a = none)
    ∧ (stateAfterSetup F O n).frees = []
  | 0 => by
      refine ⟨rfl, rfl, ?_, ?_, rfl⟩
      · intro i hi
        omega
      · intro a _
        rfl
  | n + 1 => by
      obtain ⟨he, hn, hmem, hnone, hfr⟩ := setupCustom_spec F O n
      have hstep := setupStep_custom (gameAfterSetup F O n) (stateAfterSetup F O n) n
      have hg : gameAfterSetup F O (n + 1)
          = (setupStep (customRcImpl Entity) (gameAfterSetup F O n)
              (stateAfterSetup F O n) n).1 :=
        congrArg Prod.fst (setup_succ F O n)
      have hs : stateAfterSetup F O (n + 1)
          = (setupStep (customRcImpl Entity) (gameAfterSetup F O n)
              (stateAfterSetup F O n) n).2 :=
        congrArg Prod.snd (setup_succ F O n)
      refine ⟨?_, ?_, ?_, ?_, ?_⟩
      · rw [hg, hstep.1, he, hn, List.range_succ]
        simp
      · rw [hs, hstep.2.2.2.1, hn]
      · intro i hi
        rcases Nat.lt_or_ge i n with hin | hin
        · have hne : i + 1 ≠ (stateAfterSetup F O n).next := by omega
          rw [hs, hstep.2.2.2.2.2.1 (i + 1) hne, hmem i hin]
        · have hieq : i = n := by omega
          subst hieq
          rw [hs, ← hn, hstep.2.2.2.2.1]
      · intro a ha
        have hne : a ≠ (stateAfterSetup F O n).next := by omega
        rw [hs, hstep.2.2.2.2.2.1 a hne]
        exact hnone a (by omega)
      · rw [hs, hstep.2.2.2.2.2.2, hfr]

/-- C3 counterexample: after `setup(3)` (the spec's example) the claim "each
stored handle's block has a live-reference count of at least 2" is false — the
construction temporary `RcType::new(entity)` is dropped at the end of the push
statement, leaving every block at count 1. The stored handle at address 1 is in
the collection, its block holds count 1, and no block of any stored handle has
count at least 2. -/
theorem setup_count_two_counterexample :
    (gameAfterSetup 1 2 3).entities.length = 3
    ∧ (⟨1⟩ : CustomRc) ∈ (gameAfterSetup 1 2 3).entities
    ∧ (stateAfterSetup 1 2 3).mem 1 = some ⟨1, ⟨0, 0.0, 0.0⟩⟩
    ∧ ¬ (∀ h ∈ (gameAfterSetup 1 2 3).entities, ∃ inner : CustomRcInner Entity,
          (stateAfterSetup 1 2 3).mem h.ptr = some inner ∧ 2 ≤ inner.ref_count) := by
  have hspec := setupCustom_spec 1 2 3
  have hent : (gameAfterSetup 1 2 3).entities
      = [(⟨1⟩ : CustomRc), ⟨2⟩, ⟨3⟩] := by
    rw [hspec.1]
    rfl
  have hmem1 : (stateAfterSetup 1 2 3).mem 1 = some ⟨1, ⟨0, 0.0, 0.0⟩⟩ :=
    hspec.2.2.1 0 (by omega)
  refine ⟨by rw [hent]; rfl, by rw [hent]; simp, hmem1, ?_⟩
  intro hcl
  obtain ⟨inner, hmem, hge⟩ := hcl ⟨1⟩ (by rw [hent]; simp)
  rw [hmem1] at hmem
  have hinner := Option.some.inj hmem
  rw [← hinner] at hge
  simp at hge

/-- C3 (amended): after `Game::setup(n)` the entity collection holds exactly
`n` handles, and the storage block underlying each stored handle is live with
reference count exactly 1 — the handle surviving in the collection is the
clone, and the construction temporary has already been dropped. -/
theorem setup_collection_counts (F O n : Nat) :
    (gameAfterSetup F O n).entities.length = n
    ∧ ∀ h ∈ (gameAfterSetup F O n).entities, ∃ inner : CustomRcInner Entity,
        (stateAfterSetup F O n).mem h.ptr = some inner ∧ inner.ref_count = 1 := by
  have hspec := setupCustom_spec F O n
  constructor
  · rw [hspec.1]
    simp
  · intro h hh
    rw [hspec.1] at hh
    simp only [List.mem_map, List.mem_range] at hh
    obtain ⟨i, hi, rfl⟩ := hh
    exact ⟨⟨1, ⟨i, 0.0, 0.0⟩⟩, hspec.2.2.1 i hi, rfl⟩

theorem setup_collection_counts_witness :
    (gameAfterSetup 1 2 3).entities.length = 3
    ∧ (⟨1⟩ : CustomRc) ∈ (gameAfterSetup 1 2 3).entities
    ∧ (∃ inner : CustomRcInner Entity,
        (stateAfterSetup 1 2 3).mem (⟨1⟩ : CustomRc).ptr = some inner
        ∧ inner.ref_count = 1) := by
  have hmem : (⟨1⟩ : CustomRc) ∈ (gameAfterSetup 1 2 3).entities := by
    rw [(setupCustom_spec 1 2 3).1]
    simp
  exact ⟨(setup_collection_counts 1 2 3).1, hmem,
    (setup_collection_counts 1 2 3).2 ⟨1⟩ hmem⟩

/-! ### `Game::run` leaves the heap exactly as `setup` left it -/

/-- One clone/deref/drop cycle of the run loop over `CustomRc` on a live block
returns the heap unchanged: the clone's increment is exactly undone by the
clone's drop, and the value is only read. -/
theorem runOnce_custom_id (s : State Entity) (e : CustomRc) (c : Nat) (v : Entity)
    (hmem : s.mem e.ptr = some ⟨c, v⟩) (hc : 1 ≤ c) :
    runOnce (customRcImpl Entity) e s = s := by
  have hne : ¬ c + 1 - 1 = 0 := by omega
  have hc0 : ¬ c = 0 := by omega
  have hrun : runOnce (customRcImpl Entity) e s
      = (s.write e.ptr (some ⟨c + 1, v⟩)).write e.ptr (some ⟨c + 1 - 1, v⟩) := by
    simp [runOnce, CustomRc.clone, hmem, CustomRc.deref, CustomRc.drop_rc,
      State.write, hne, hc0]
  rw [hrun]
  refine State.ext ?_ ?_ ?_
  · funext b
    by_cases hb : b = e.ptr
    · subst hb
      simp [State.write, hmem]
    · simp [State.write, hb]
  · simp [State.write]
  · simp [State.write]

theorem sweep_custom_id : ∀ (es : List CustomRc) (s : State Entity),
    (∀ e ∈ es, ∃ c v, s.mem e.ptr = some ⟨c, v⟩ ∧ 1 ≤ c) →
    sweep (customRcImpl Entity) es s = (s, es.length)
  | [], _, _ => rfl
  | e :: rest, s, hlive => by
      obtain ⟨c, v, hmem, hc⟩ := hlive e (List.mem_cons_self e rest)
      have h1 : runOnce (customRcImpl Entity) e s = s :=
        runOnce_custom_id s e c v hmem hc
      have ih := sweep_custom_id rest s
        (fun x hx => hlive x (List.mem_cons_of_mem e hx))
      simp [sweep, h1, ih]

theorem opLoop_custom_id : ∀ (k : Nat) (es : List CustomRc) (s : State Entity),
    (∀ e ∈ es, ∃ c v, s.mem e.ptr = some ⟨c, v⟩ ∧ 1 ≤ c) →
    (opLoop (customRcImpl Entity) es k s).1 = s
  | 0, _, _, _ => rfl
  | k + 1, es, s, hlive => by
      have hs := sweep_custom_id es s hlive
      have ih := opLoop_custom_id k es s hlive
      simp [opLoop, hs, ih]

theorem frameLoop_custom_id : ∀ (k ops : Nat) (es : List CustomRc) (s : State Entity),
    (∀ e ∈ es, ∃ c v, s.mem e.ptr = some ⟨c, v⟩ ∧ 1 ≤ c) →
    (frameLoop (customRcImpl Entity) es ops k s).1 = s
  | 0, _, _, _, _ => rfl
  | k + 1, ops, es, s, hlive => by
      have ho := opLoop_custom_id ops es s hlive
      have ih := frameLoop_custom_id k ops es s hlive
      simp [frameLoop, ho, ih]

/-- C10: `Game::run` never mutates any stored `Entity`. Over `CustomRc`, the
heap after `run` is exactly the heap after `setup` (the loop body only clones,
reads `x` and `y` through the clone, and drops the clone; `Entity::update` is
never invoked), so the `i`-th stored handle still dereferences to
`Entity { id: i, x: 0.0, y: 0.0 }`. -/
theorem run_preserves_entities (F O n : Nat) :
    stateAfterRun F O n = stateAfterSetup F O n
    ∧ ∀ i, i < n →
        (gameAfterSetup F O n).entities[i]? = some (⟨i + 1⟩ : CustomRc)
        ∧ (CustomRc.deref ⟨i + 1⟩ (stateAfterRun F O n)).1
            = some ⟨i, 0.0, 0.0⟩ := by
  have hspec := setupCustom_spec F O n
  have hlive : ∀ e ∈ (gameAfterSetup F O n).entities, ∃ c v,
      (stateAfterSetup F O n).mem e.ptr = some ⟨c, v⟩ ∧ 1 ≤ c := by
    intro e he
    rw [hspec.1] at he
    simp only [List.mem_map, List.mem_range] at he
    obtain ⟨i, hi, rfl⟩ := he
    exact ⟨1, ⟨i, 0.0, 0.0⟩, hspec.2.2.1 i hi, le_rfl⟩
  have hpres : stateAfterRun F O n = stateAfterSetup F O n := by
    unfold stateAfterRun Game.run
    exact frameLoop_custom_id (gameAfterSetup F O n).frames
      (gameAfterSetup F O n).operations_per_frame
      (gameAfterSetup F O n).entities (stateAfterSetup F O n) hlive
  refine ⟨hpres, ?_⟩
  intro i hi
  constructor
  · rw [hspec.1]
    simp [hi]
  · rw [hpres]
    simp [CustomRc.deref, hspec.2.2.1 i hi]

theorem run_preserves_entities_witness :
    (0 : Nat) < 3
    ∧ ((gameAfterSetup 1 2 3).entities[0]? = some (⟨1⟩ : CustomRc)
        ∧ (CustomRc.deref ⟨1⟩ (stateAfterRun 1 2 3)).1 = some ⟨0, 0.0, 0.0⟩) :=
  ⟨by omega, (run_preserves_entities 1 2 3).2 0 (by omega)⟩

end RcBench
